import Mathlib

/-!
Shallow embedding of the Pitch-Pipe-RS calibration core
(src/estimators.rs, src/calibrator.rs, src/tuner.rs).

Rust `f64` arithmetic is idealised as exact arithmetic: over `ℚ` where the
source code only uses field operations, comparisons, `floor`, `ceil` and
casts (Grid / Tuner / MaxDistanceEstimator), and over `ℝ` where the source
uses transcendental functions (`cos`, `exp`, `sqrt`) in the noise-estimation
pipeline.  Machine-integer counters (`u64`, `usize`) are modelled as `ℕ`.
The MaxDistanceEstimator is defined over an arbitrary linear ordered field
so that the same definitions serve both the executable `ℚ` instantiation and
the `ℝ`-valued calibrator pipeline.
-/

set_option linter.unusedSectionVars false

namespace PitchPipe

section MaxDistance

variable {α : Type} [LinearOrderedField α] [DecidableEq α]

/-- Minimum of a list, `0` on the empty list.  Models the Rust expression
`speeds.iter().min_by(|a, b| a.total_cmp(b)).unwrap()` of
src/estimators.rs (the 5-slot array is never empty, and no NaNs arise in
the exact-arithmetic model, so `total_cmp` agrees with the field order). -/
def speedsMin : List α → α
  | [] => 0
  | h :: t => t.foldl min h

/-- Replaces the first occurrence of `m` in the list with `d`.  Models the
in-place write `*min = delta` through the mutable reference produced by
Rust `min_by`, which returns the first minimal element of the iterator. -/
def replaceFirst : List α → α → α → List α
  | [], _, _ => []
  | h :: t, m, d => if h = m then d :: t else h :: replaceFirst t m d

end MaxDistance

/-- Model of `MaxDistanceEstimator` (src/estimators.rs lines 45-93): the
outlier-robust single-axis peak tracker.  The Rust `[f64; 5]` array is a
length-5 list (the length is maintained by every operation). -/
structure MaxDistanceEstimator (α : Type) where
  previous : Option α
  speeds : List α

namespace MaxDistanceEstimator

variable {α : Type} [LinearOrderedField α] [DecidableEq α]

/-- Model of `MaxDistanceEstimator::new` — no previous sample, five
zero-initialised slots. -/
def new : MaxDistanceEstimator α := ⟨none, List.replicate 5 0⟩

/-- Model of `MaxDistanceEstimator::update` (src/estimators.rs lines 65-83):
on the second and later samples, `delta = |previous - sample|`; if `delta`
exceeds `3 * stddev` and the current minimum slot, that minimum slot is
overwritten with `delta`; `previous` is always set to `sample`. -/
def update (e : MaxDistanceEstimator α) (sample stddev : α) :
    MaxDistanceEstimator α :=
  match e.previous with
  | none => { e with previous := some sample }
  | some prev =>
    let delta := |prev - sample|
    if 3 * stddev < delta ∧ speedsMin e.speeds < delta then
      { previous := some sample
        speeds := replaceFirst e.speeds (speedsMin e.speeds) delta }
    else
      { e with previous := some sample }

/-- Model of `MaxDistanceEstimator::max_within_reason` — the minimum of the
five tracked slots. -/
def max_within_reason (e : MaxDistanceEstimator α) : α := speedsMin e.speeds

end MaxDistanceEstimator

/-- Model of `ThreeAxisMaxDistanceEstimator` (src/estimators.rs lines
95-124): one per-axis estimator, sharing a single scalar `noise_std_dev`
used as the jump threshold scale. -/
structure ThreeAxisMaxDistanceEstimator (α : Type) where
  noise_std_dev : α
  x : MaxDistanceEstimator α
  y : MaxDistanceEstimator α
  z : MaxDistanceEstimator α

namespace ThreeAxisMaxDistanceEstimator

variable {α : Type} [LinearOrderedField α] [DecidableEq α]

/-- Model of `ThreeAxisMaxDistanceEstimator::new`. -/
def new (noise_std_dev : α) : ThreeAxisMaxDistanceEstimator α :=
  ⟨noise_std_dev, .new, .new, .new⟩

/-- Model of `ThreeAxisMaxDistanceEstimator::update` — feeds each axis,
passing the stored `noise_std_dev` as the threshold scale. -/
def update (e : ThreeAxisMaxDistanceEstimator α) (x y z : α) :
    ThreeAxisMaxDistanceEstimator α :=
  { e with
    x := e.x.update x e.noise_std_dev
    y := e.y.update y e.noise_std_dev
    z := e.z.update z e.noise_std_dev }

/-- Model of `ThreeAxisMaxDistanceEstimator::max_within_reason` — the
maximum over the three per-axis results, in the source's association
order `x.max(y).max(z)`. -/
def max_within_reason (e : ThreeAxisMaxDistanceEstimator α) : α :=
  max (max e.x.max_within_reason e.y.max_within_reason) e.z.max_within_reason

end ThreeAxisMaxDistanceEstimator

section MaxDistanceRuns

variable {α : Type} [LinearOrderedField α] [DecidableEq α]

/-- Feeds a sample sequence with a fixed `stddev` into a fresh
`MaxDistanceEstimator`. -/
def runMDE (samples : List α) (stddev : α) : MaxDistanceEstimator α :=
  samples.foldl (fun e s => e.update s stddev) .new

/-- Feeds a sequence of `(x, y, z)` triples into a fresh
`ThreeAxisMaxDistanceEstimator` seeded with `nsd`. -/
def runTAMDE (samples : List (α × α × α)) (nsd : α) :
    ThreeAxisMaxDistanceEstimator α :=
  samples.foldl (fun e t => e.update t.1 t.2.1 t.2.2)
    (ThreeAxisMaxDistanceEstimator.new nsd)

/-- Absolute sample-to-sample jumps of a sequence:
`|l[i] - l[i+1]|` for consecutive pairs. -/
def deltasOf (l : List α) : List α := (l.zip l.tail).map fun p => |p.1 - p.2|

/-- Jumps still to be generated by processing `l` from a state whose
`previous` field is the given option. -/
def deltasFrom : Option α → List α → List α
  | none, l => deltasOf l
  | some p, l => deltasOf (p :: l)

end MaxDistanceRuns

/-- Model of the `Grid` of src/tuner.rs (lines 8-15).  The contents and
dimensions of the precision table (`crate::table`, an external data asset
that is not part of the repository sources) are parameters: `table` is the
lookup function and `jDim` is `J_DIM`, the only dimension `precision`
inspects.  Out-of-range accesses, which would panic in Rust, return
whatever `table` yields. -/
structure Grid where
  jDim : ℕ
  table : ℕ → ℕ → ℕ → ℚ

namespace Grid

/-- Rust `f64::EPSILON`, the comparison tolerance used by
`Grid::precision`. -/
def epsF64 : ℚ := 1 / 2 ^ 52

/-- Rust `as usize` on an integral, non-NaN `f64` value: truncation,
saturating at `0` for negative inputs. -/
def toIdx (q : ℚ) : ℕ := (⌊q⌋).toNat

/-- Model of the decade-shift `while` loop of `Grid::get_beta_index`
(src/tuner.rs lines 86-89): while `beta < 1` and `b_idx > 0`, multiply
`beta` by `10.00000001` and subtract `9` from `b_idx`.  `b_idx` starts at
`46` and each iteration lowers it by `9`, so its value at a loop entry is
`46 - 9k`; after six iterations it is `-8`, where the guard `b_idx > 0`
fails, hence fuel `6` reproduces the loop exactly. -/
def get_beta_index_loop : ℕ → ℚ × ℚ → ℚ × ℚ
  | 0, s => s
  | fuel + 1, (beta, bIdx) =>
    if beta < 1 ∧ 0 < bIdx then
      get_beta_index_loop fuel (beta * (10 + 1 / 10 ^ 8), bIdx - 9)
    else (beta, bIdx)

/-- Model of `Grid::get_beta_index` (src/tuner.rs lines 83-101), returning
the `[b_idx, b_idx_lo, b_idx_hi]` triple. -/
def get_beta_index (beta : ℚ) : ℚ × ℚ × ℚ :=
  let s := get_beta_index_loop 6 (beta, 46)
  if s.2 < 0 then (0, 0, 0)
  else
    let bIdx := max (s.2 - 1) 0
    let beta2 := s.1 + bIdx
    (beta2, (⌊beta2⌋ : ℚ), (⌈beta2⌉ : ℚ))

/-- Model of `Grid::precision` (src/tuner.rs lines 19-81): fractional index
computation per axis, interpolation weights zeroed when a bracket has zero
width (`f64::EPSILON` tolerance), and standard trilinear interpolation over
the eight surrounding cells. -/
def precision (g : Grid) (jitter cutoff_hz beta : ℚ) : ℚ :=
  let jIdx := min (3 * jitter - 1) ((g.jDim - 1 : ℕ) : ℚ)
  let jLo : ℚ := (⌊jIdx⌋ : ℚ)
  let jHi : ℚ := (⌈jIdx⌉ : ℚ)
  let fcIdx := cutoff_hz / (1 / 20) - 1 / 20
  let fcLo : ℚ := (⌊fcIdx⌋ : ℚ)
  let fcHi : ℚ := (⌈fcIdx⌉ : ℚ)
  let vals := get_beta_index beta
  let bIdx := vals.1
  let bLo := vals.2.1
  let bHi := vals.2.2
  let xd := if epsF64 < |jHi - jLo| then (jIdx - jLo) / (jHi - jLo) else 0
  let yd := if epsF64 < |fcHi - fcLo| then (fcIdx - fcLo) / (fcHi - fcLo) else 0
  let zd := if epsF64 < |bHi - bLo| then (bIdx - bLo) / (bHi - bLo) else 0
  let c000 := g.table (toIdx jLo) (toIdx fcLo) (toIdx bLo)
  let c100 := g.table (toIdx jHi) (toIdx fcLo) (toIdx bLo)
  let c010 := g.table (toIdx jLo) (toIdx fcHi) (toIdx bLo)
  let c110 := g.table (toIdx jHi) (toIdx fcHi) (toIdx bLo)
  let c001 := g.table (toIdx jLo) (toIdx fcLo) (toIdx bHi)
  let c101 := g.table (toIdx jHi) (toIdx fcLo) (toIdx bHi)
  let c011 := g.table (toIdx jLo) (toIdx fcHi) (toIdx bHi)
  let c111 := g.table (toIdx jHi) (toIdx fcHi) (toIdx bHi)
  let c00 := c000 * (1 - xd) + c100 * xd
  let c01 := c001 * (1 - xd) + c101 * xd
  let c10 := c010 * (1 - xd) + c110 * xd
  let c11 := c011 * (1 - xd) + c111 * xd
  let c0 := c00 * (1 - yd) + c10 * yd
  let c1 := c01 * (1 - yd) + c11 * yd
  c0 * (1 - zd) + c1 * zd

end Grid

namespace Tuner

/-- Model of the cutoff sweep of `Tuner::tune` (src/tuner.rs line 159):
`(10..400).map(|x| x as f64 / 100.0)`, the candidate `min_cutoff_hz`
values enumerated, in order, by every sweep iteration of the outer
relaxation loop. -/
def minHzCandidates : List ℚ := (List.range' 10 390).map fun k : ℕ => (k : ℚ) / 100

/-- Model of the candidate acceptance rule of `Tuner::tune`
(src/tuner.rs lines 180-184), as a function of the scalars it reads:
if `best_lag_s <= max_lag_secs` then
`!(lag_s >= max_lag_secs || precision > best_precision)`,
else `lag_s <= best_lag_s`. -/
def acceptCandidate (maxLagSecs bestLagS bestPrecision lagS precisionV : ℚ) :
    Bool :=
  if bestLagS ≤ maxLagSecs then
    !(decide (maxLagSecs ≤ lagS) || decide (bestPrecision < precisionV))
  else
    decide (lagS ≤ bestLagS)

end Tuner

/-- Model of `RunningStatistics` (src/estimators.rs lines 8-43): Welford
online mean/variance tracking with a 95% confidence-interval half-width. -/
structure RunningStatistics where
  count : ℕ
  mean : ℝ
  m2 : ℝ
  sample_variance : ℝ
  max : ℝ
  ci95 : ℝ

namespace RunningStatistics

/-- Model of `RunningStatistics::default`; the initial `max` is `f64::MIN`,
the most negative finite double. -/
noncomputable def default : RunningStatistics :=
  ⟨0, 0, 0, 0, -(2 ^ 1024 - 2 ^ 971), 0⟩

/-- Model of `RunningStatistics::update` (src/estimators.rs lines 31-42).
The Rust `(self.count - 1) as f64` is u64 subtraction on the
already-incremented count, hence never underflows; it is modelled as real
subtraction on the incremented count, which is equal. -/
noncomputable def update (st : RunningStatistics) (val : ℝ) : RunningStatistics :=
  let count := st.count + 1
  let delta := val - st.mean
  let mean := st.mean + delta / count
  let delta2 := val - mean
  let m2 := st.m2 + delta * delta2
  let maxv := Max.max val st.max
  let sample_variance := m2 / ((count : ℝ) - 1)
  ⟨count, mean, m2, sample_variance, maxv,
    1.96 * Real.sqrt (sample_variance / count)⟩

end RunningStatistics

/-- Model of `NoiseEstimator<N>` (src/estimators.rs lines 140-234).  The
const generic `N` becomes the `sampleHz` field; the always-full circular
buffer is the list `samples`, oldest element first. -/
structure NoiseEstimator where
  sampleHz : ℕ
  samples : List ℂ
  power : ℝ
  count : ℕ
  x0 : ℂ
  x1 : ℂ
  x2 : ℂ
  w0 : ℂ
  w1 : ℂ
  w2 : ℂ
  w : ℝ

namespace NoiseEstimator

/-- Model of `NoiseEstimator::<N>::new(monitor_hz)` (src/estimators.rs lines
162-202): the monitored bin is `N/2 - monitor_hz` (usize arithmetic), the
rotators are `exp(i·(-2π·bin/N))` for the bin and its two neighbours (the
bin index is cast to f64 before the ±1 offsets, so `bin - 1` may be `-1`),
the buffer is pre-filled with zeros, and `w` is the Hanning-window
normalisation `Σ_{hz<N} (0.5 - 0.5·cos(2π·hz/(N-1)))²`. -/
noncomputable def new (N monitor_hz : ℕ) : NoiseEstimator :=
  let m : ℕ := N / 2 - monitor_hz
  { sampleHz := N
    samples := List.replicate N 0
    power := 0
    count := 0
    x0 := 0
    x1 := 0
    x2 := 0
    w0 := Complex.exp ⟨0, -2 * Real.pi * ((m : ℝ) - 1) / N⟩
    w1 := Complex.exp ⟨0, -2 * Real.pi * (m : ℝ) / N⟩
    w2 := Complex.exp ⟨0, -2 * Real.pi * ((m : ℝ) + 1) / N⟩
    w := ∑ hz ∈ Finset.range N,
      (0.5 - 0.5 * Real.cos (2 * Real.pi * hz / ((N : ℝ) - 1))) ^ 2 }

/-- Model of `NoiseEstimator::update` (src/estimators.rs lines 204-221):
slide the three bin accumulators against the oldest buffered sample
(`samples.get(0)`), push the new sample (evicting the oldest), increment the
count, and once `count >= sample_hz` accumulate the power of the
Hanning-combined bins `0.5·x1 - 0.25·x0 - 0.25·x2`. -/
noncomputable def update (e : NoiseEstimator) (sample : ℝ) : NoiseEstimator :=
  let sc : ℂ := (sample : ℂ)
  let oldest := e.samples.headI
  let nx0 := e.w0 * (e.x0 + sc - oldest)
  let nx1 := e.w1 * (e.x1 + sc - oldest)
  let nx2 := e.w2 * (e.x2 + sc - oldest)
  let ncount := e.count + 1
  let tmp := (0.5 : ℂ) * nx1 - (0.25 : ℂ) * nx0 - (0.25 : ℂ) * nx2
  { e with
    samples := e.samples.tail ++ [sc]
    power := if e.sampleHz ≤ ncount then e.power + Complex.abs tmp ^ 2 else e.power
    count := ncount
    x0 := nx0
    x1 := nx1
    x2 := nx2 }

/-- Model of `NoiseEstimator::variance` (src/estimators.rs lines 223-233):
`None` until one full buffer cycle has been exceeded, otherwise the
accumulated power normalised by `(count - sample_hz) * w`. -/
noncomputable def variance (e : NoiseEstimator) : Option ℝ :=
  if e.count ≤ e.sampleHz then none
  else some (e.power / (((e.count - e.sampleHz : ℕ) : ℝ) * e.w))

end NoiseEstimator

/-- Model of `SixtyHzThreeAxisNoiseEstimator` (src/estimators.rs lines
322-405): twenty `NoiseEstimator<60>` per axis, monitoring offsets 0..19,
a shared `RunningStatistics` and the CI-ratio convergence threshold.  The
constructor takes the threshold because src/calibrator.rs line 41 invokes
`SixtyHzThreeAxisNoiseEstimator::new(0.1)` (the impl in estimators.rs
hard-codes the same 0.1); `mean_variance` is the accessor defined on the
generic `ThreeAxisNoiseEstimator` (src/estimators.rs lines 313-315) that
src/calibrator.rs line 58 calls on this estimator. -/
structure SixtyHzThreeAxisNoiseEstimator where
  x : List NoiseEstimator
  y : List NoiseEstimator
  z : List NoiseEstimator
  stats : RunningStatistics
  threshold : ℝ

namespace SixtyHzThreeAxisNoiseEstimator

/-- Model of the indexed `for i in 0..20` loop of `update`: walk the three
per-axis estimator lists in lockstep, update each estimator with its axis
sample, and fold the three variances into the running statistics (in the
order x, y, z) whenever all three are defined. -/
noncomputable def axesLoop (xv yv zv : ℝ) :
    List NoiseEstimator → List NoiseEstimator → List NoiseEstimator →
    RunningStatistics →
    List NoiseEstimator × List NoiseEstimator × List NoiseEstimator ×
      RunningStatistics
  | ex :: tx, ey :: ty, ez :: tz, st =>
    let ex2 := ex.update xv
    let ey2 := ey.update yv
    let ez2 := ez.update zv
    let st2 := match ex2.variance, ey2.variance, ez2.variance with
      | some vx, some vy, some vz => ((st.update vx).update vy).update vz
      | _, _, _ => st
    let r := axesLoop xv yv zv tx ty tz st2
    (ex2 :: r.1, ey2 :: r.2.1, ez2 :: r.2.2.1, r.2.2.2)
  | lx, ly, lz, st => (lx, ly, lz, st)

/-- Model of `SixtyHzThreeAxisNoiseEstimator::new` — fresh estimators for
monitor offsets 0 through 19 on each axis, default statistics. -/
noncomputable def new (threshold : ℝ) : SixtyHzThreeAxisNoiseEstimator :=
  { x := (List.range 20).map (NoiseEstimator.new 60)
    y := (List.range 20).map (NoiseEstimator.new 60)
    z := (List.range 20).map (NoiseEstimator.new 60)
    stats := RunningStatistics.default
    threshold := threshold }

/-- Model of `SixtyHzThreeAxisNoiseEstimator::update` (src/estimators.rs
lines 382-404): run the loop over the twenty estimator triples, then report
whether `2 * ci95 / mean < threshold`. -/
noncomputable def update (e : SixtyHzThreeAxisNoiseEstimator) (xv yv zv : ℝ) :
    SixtyHzThreeAxisNoiseEstimator × Bool :=
  let r := axesLoop xv yv zv e.x e.y e.z e.stats
  let e2 : SixtyHzThreeAxisNoiseEstimator :=
    { x := r.1, y := r.2.1, z := r.2.2.1, stats := r.2.2.2,
      threshold := e.threshold }
  (e2, decide (2 * e2.stats.ci95 / e2.stats.mean < e.threshold))

/-- Model of `mean_variance` (src/estimators.rs lines 313-315): the mean of
the aggregated per-frequency variance samples. -/
def mean_variance (e : SixtyHzThreeAxisNoiseEstimator) : ℝ := e.stats.mean

end SixtyHzThreeAxisNoiseEstimator

/-- Model of `CalibrationState` (src/calibrator.rs lines 5-15). -/
inductive CalibrationState where
  | WaitToStart
  | EstimateNoise
  | NoiseEstimateComplete
  | EstimateAmplitude
  | AmplitudeEstimateComplete
  | EstimateParameters
  | ParametersEstimateComplete
  | Tuning
  | Tuned

/-- Model of `TuningSettings` (src/calibrator.rs lines 147-153). -/
structure TuningSettings where
  max_target_precision : ℝ
  max_lag_secs : ℝ
  noise_variance : ℝ
  max_amplitude : ℝ
  sample_rate : ℝ

/-- Model of `Calibrator` (src/calibrator.rs lines 17-28). -/
structure Calibrator where
  least_precision : ℝ
  worst_lag_secs : ℝ
  state : CalibrationState
  noise_estimator : SixtyHzThreeAxisNoiseEstimator
  noise_std_dev : Option ℝ
  amplitude_estimator : Option (ThreeAxisMaxDistanceEstimator ℝ)
  amplitude : Option ℝ

namespace Calibrator

/-- Model of `Calibrator::new` (src/calibrator.rs lines 35-47). -/
noncomputable def new (least_precision worst_lag_secs : ℝ) : Calibrator :=
  { least_precision := least_precision
    worst_lag_secs := worst_lag_secs
    state := .WaitToStart
    noise_estimator := SixtyHzThreeAxisNoiseEstimator.new 0.1
    noise_std_dev := none
    amplitude_estimator := none
    amplitude := none }

/-- Model of `Calibrator::prepare_noise` (src/calibrator.rs lines 51-53). -/
def prepare_noise (c : Calibrator) : Calibrator :=
  { c with state := .EstimateNoise }

/-- Model of `Calibrator::process_noise` (src/calibrator.rs lines 55-65):
update the aggregate noise estimator; if it reports convergence, bind
`mean_variance()` to a LOCAL variable named `noise_std_dev` (no square
root is taken), seed a `ThreeAxisMaxDistanceEstimator` with it, and advance
the state.  The `noise_std_dev` FIELD of the calibrator is not written on
either path. -/
noncomputable def process_noise (c : Calibrator) (xv yv zv : ℝ) :
    Calibrator × Bool :=
  let p := c.noise_estimator.update xv yv zv
  if p.2 then
    ({ c with
        noise_estimator := p.1
        amplitude_estimator :=
          some (ThreeAxisMaxDistanceEstimator.new p.1.mean_variance)
        state := .NoiseEstimateComplete }, true)
  else
    ({ c with noise_estimator := p.1 }, false)

/-- Model of `Calibrator::prepare_amplitude` (src/calibrator.rs lines
70-77): early-return `false` when the `noise_std_dev` field is `None`,
otherwise move to `EstimateAmplitude` and return `true`. -/
def prepare_amplitude (c : Calibrator) : Calibrator × Bool :=
  match c.noise_std_dev with
  | none => (c, false)
  | some _ => ({ c with state := .EstimateAmplitude }, true)

/-- Model of `Calibrator::process_amplitude` (src/calibrator.rs lines
82-89): update the amplitude estimator when present and report whether one
was present. -/
noncomputable def process_amplitude (c : Calibrator) (xv yv zv : ℝ) :
    Calibrator × Bool :=
  match c.amplitude_estimator with
  | some est =>
    ({ c with amplitude_estimator := some (est.update xv yv zv) }, true)
  | none => (c, false)

/-- Model of `Calibrator::finalize_amplitude_processing` (src/calibrator.rs
lines 105-114): when an amplitude estimator exists, record its
`max_within_reason()` and advance the state. -/
noncomputable def finalize_amplitude_processing (c : Calibrator) :
    Calibrator × Bool :=
  match c.amplitude_estimator with
  | some est =>
    ({ c with
        amplitude := some est.max_within_reason
        state := .AmplitudeEstimateComplete }, true)
  | none => (c, false)

/-- Model of `Calibrator::tuning_settings` (src/calibrator.rs lines
133-144): `Some` only when both the `noise_std_dev` field and the recorded
amplitude are present. -/
noncomputable def tuning_settings (c : Calibrator) : Option TuningSettings :=
  match c.noise_std_dev, c.amplitude with
  | some nsd, some amp =>
    some { max_target_precision := c.least_precision / 3
           max_lag_secs := c.worst_lag_secs
           noise_variance := nsd ^ 2
           max_amplitude := amp
           sample_rate := 60 }
  | _, _ => none

end Calibrator

/-- API calls of the safe `Calibrator` surface, for quantifying over usage
sequences.  The `_unchecked` variants (process_amplitude_unchecked,
finalize_amplitude_processing_unchecked) are undefined behaviour when the
estimator is absent and are not modelled; when defined they write the same
fields as their checked counterparts and so also never touch
`noise_std_dev`. -/
inductive CalOp where
  | prepNoise
  | procNoise (xv yv zv : ℝ)
  | prepAmp
  | procAmp (xv yv zv : ℝ)
  | finalizeAmp

/-- Applies one API call to a calibrator state, keeping its state part. -/
noncomputable def applyOp (c : Calibrator) : CalOp → Calibrator
  | .prepNoise => c.prepare_noise
  | .procNoise xv yv zv => (c.process_noise xv yv zv).1
  | .prepAmp => c.prepare_amplitude.1
  | .procAmp xv yv zv => (c.process_amplitude xv yv zv).1
  | .finalizeAmp => c.finalize_amplitude_processing.1

/-- Runs a sequence of API calls from a calibrator state. -/
noncomputable def runOps (c : Calibrator) (ops : List CalOp) : Calibrator :=
  ops.foldl applyOp c

/-- Converged-statistics demonstration state: the shared statistics are in a
converged configuration (mean 4, ci95 0, so the CI ratio 0 is below the 0.1
threshold) while every per-frequency estimator is fresh (count 0, under one
buffer cycle), so the next `process_noise` call leaves the statistics
untouched and reports convergence with `mean_variance() = 4`. -/
noncomputable def demoStats : RunningStatistics := ⟨100, 4, 0, 0, 4, 0⟩

/-- Calibrator state in the noise-estimation stage whose aggregate
statistics have just converged (see `demoStats`). -/
noncomputable def demoCalibrator : Calibrator :=
  { least_precision := 3
    worst_lag_secs := 2
    state := .EstimateNoise
    noise_estimator :=
      { SixtyHzThreeAxisNoiseEstimator.new 0.1 with stats := demoStats }
    noise_std_dev := none
    amplitude_estimator := none
    amplitude := none }

section MaxDistanceLemmas

variable {α : Type} [LinearOrderedField α] [DecidableEq α]

theorem foldl_min_le_init : ∀ (l : List α) (a : α), l.foldl min a ≤ a
  | [], a => le_refl a
  | h :: t, a => le_trans (foldl_min_le_init t (min a h)) (min_le_left a h)

theorem foldl_min_mem : ∀ (l : List α) (a : α), l.foldl min a = a ∨ l.foldl min a ∈ l := by
  intro l
  induction l with
  | nil => intro a; exact Or.inl rfl
  | cons h t ih =>
    intro a
    rcases ih (min a h) with heq | hmem
    · rcases min_choice a h with hc | hc
      · exact Or.inl (by rw [List.foldl_cons, heq, hc])
      · exact Or.inr (by rw [List.foldl_cons, heq, hc]; exact List.mem_cons_self h t)
    · exact Or.inr (List.mem_cons_of_mem h hmem)

theorem foldl_min_le_mem : ∀ (l : List α) (a v : α), v ∈ l → l.foldl min a ≤ v := by
  intro l
  induction l with
  | nil => intro a v hv; exact absurd hv (List.not_mem_nil v)
  | cons h t ih =>
    intro a v hv
    rcases List.mem_cons.mp hv with rfl | hv
    · exact le_trans (foldl_min_le_init t (min a v)) (min_le_right a v)
    · exact ih (min a h) v hv

theorem speedsMin_mem (l : List α) (h : l ≠ []) : speedsMin l ∈ l := by
  match l with
  | [] => exact absurd rfl h
  | x :: t =>
    show t.foldl min x ∈ x :: t
    rcases foldl_min_mem t x with heq | hmem
    · rw [heq]; exact List.mem_cons_self x t
    · exact List.mem_cons_of_mem x hmem

theorem speedsMin_le (l : List α) (v : α) (h : v ∈ l) : speedsMin l ≤ v := by
  match l with
  | x :: t =>
    rcases List.mem_cons.mp h with rfl | h
    · exact foldl_min_le_init t v
    · exact foldl_min_le_mem t x v h

theorem replaceFirst_length (l : List α) (m d : α) :
    (replaceFirst l m d).length = l.length := by
  induction l with
  | nil => rfl
  | cons h t ih =>
    by_cases hc : h = m <;> simp [replaceFirst, hc, ih]

theorem mem_replaceFirst {l : List α} {m d v : α}
    (h : v ∈ replaceFirst l m d) : v = d ∨ v ∈ l := by
  induction l with
  | nil => exact absurd h (List.not_mem_nil v)
  | cons x t ih =>
    by_cases hc : x = m
    · rw [replaceFirst, if_pos hc] at h
      rcases List.mem_cons.mp h with rfl | h
      · exact Or.inl rfl
      · exact Or.inr (List.mem_cons_of_mem x h)
    · rw [replaceFirst, if_neg hc] at h
      rcases List.mem_cons.mp h with rfl | h
      · exact Or.inr (List.mem_cons_self v t)
      · rcases ih h with hd | hmem
        · exact Or.inl hd
        · exact Or.inr (List.mem_cons_of_mem x hmem)

theorem countP_replaceFirst (p : α → Bool) (l : List α) (m d : α) :
    (replaceFirst l m d).countP p ≤ l.countP p + 1 := by
  induction l with
  | nil => simp [replaceFirst]
  | cons x t ih =>
    by_cases hc : x = m
    · rw [replaceFirst, if_pos hc]
      rw [List.countP_cons, List.countP_cons]
      have hd1 : (if p d then 1 else 0) ≤ 1 := by split <;> omega
      have hx0 : (0 : ℕ) ≤ if p x then 1 else 0 := by omega
      omega
    · rw [replaceFirst, if_neg hc]
      rw [List.countP_cons, List.countP_cons]
      omega

theorem deltasOf_cons_cons (p s : α) (t : List α) :
    deltasOf (p :: s :: t) = |p - s| :: deltasOf (s :: t) := rfl

theorem deltasOf_nonneg {l : List α} {v : α} (h : v ∈ deltasOf l) : 0 ≤ v := by
  rcases List.mem_map.mp h with ⟨q, _, rfl⟩
  exact abs_nonneg _

theorem deltasOf_length (l : List α) : (deltasOf l).length = l.length - 1 := by
  match l with
  | [] => rfl
  | x :: t => simp [deltasOf]

theorem foldr_max_zero_spec (l : List α) (h : l ≠ []) (h0 : ∀ v ∈ l, 0 ≤ v) :
    l.foldr max 0 ∈ l ∧ ∀ v ∈ l, v ≤ l.foldr max 0 := by
  induction l with
  | nil => exact absurd rfl h
  | cons x t ih =>
    match t with
    | [] =>
      constructor
      · simp [max_eq_left (h0 x (List.mem_cons_self x []))]
      · intro v hv
        rcases List.mem_cons.mp hv with rfl | hv
        · exact le_max_left v 0
        · exact absurd hv (List.not_mem_nil v)
    | y :: t' =>
      have ht : y :: t' ≠ [] := by simp
      have h0t : ∀ v ∈ y :: t', 0 ≤ v := fun v hv => h0 v (List.mem_cons_of_mem x hv)
      obtain ⟨hmem, hbound⟩ := ih ht h0t
      rw [List.foldr_cons]
      constructor
      · rcases le_total x ((y :: t').foldr max 0) with hle | hle
        · rw [max_eq_right hle]; exact List.mem_cons_of_mem x hmem
        · rw [max_eq_left hle]; exact List.mem_cons_self x _
      · intro v hv
        rcases List.mem_cons.mp hv with rfl | hv
        · exact le_max_left v _
        · exact le_trans (hbound v hv) (le_max_right x _)

theorem deltasFrom_none (l : List α) : deltasFrom (none : Option α) l = deltasOf l := rfl

theorem deltasFrom_some (p : α) (l : List α) :
    deltasFrom (some p) l = deltasOf (p :: l) := rfl

theorem update_speeds_eq (e : MaxDistanceEstimator α) (s sd : α) :
    (e.update s sd).speeds = e.speeds ∨
    ∃ p, e.previous = some p ∧ 3 * sd < |p - s| ∧ speedsMin e.speeds < |p - s| ∧
      (e.update s sd).speeds = replaceFirst e.speeds (speedsMin e.speeds) (|p - s|) := by
  rcases e with ⟨prev, speeds⟩
  cases prev with
  | none => exact Or.inl rfl
  | some p =>
    by_cases hc : 3 * sd < |p - s| ∧ speedsMin speeds < |p - s|
    · exact Or.inr ⟨p, rfl, hc.1, hc.2, by simp [MaxDistanceEstimator.update, hc]⟩
    · exact Or.inl (by simp [MaxDistanceEstimator.update, hc])

theorem update_previous (e : MaxDistanceEstimator α) (s sd : α) :
    (e.update s sd).previous = some s := by
  rcases e with ⟨prev, speeds⟩
  cases prev with
  | none => rfl
  | some p =>
    by_cases hc : 3 * sd < |p - s| ∧ speedsMin speeds < |p - s| <;>
      simp [MaxDistanceEstimator.update, hc]

theorem mde_foldl_length (sd : α) :
    ∀ (l : List α) (e : MaxDistanceEstimator α),
      ((l.foldl (fun e s => e.update s sd) e).speeds).length = e.speeds.length := by
  intro l
  induction l with
  | nil => intro e; rfl
  | cons s t ih =>
    intro e
    rw [List.foldl_cons, ih]
    rcases update_speeds_eq e s sd with heq | ⟨p, _, _, _, heq⟩
    · rw [heq]
    · rw [heq, replaceFirst_length]

theorem mde_foldl_mem (sd : α) :
    ∀ (l : List α) (e : MaxDistanceEstimator α) (v : α),
      v ∈ (l.foldl (fun e s => e.update s sd) e).speeds →
      v ∈ e.speeds ∨ (v ∈ deltasFrom e.previous l ∧ 3 * sd < v) := by
  intro l
  induction l with
  | nil => intro e v hv; exact Or.inl hv
  | cons s t ih =>
    intro e v hv
    rw [List.foldl_cons] at hv
    rcases ih (e.update s sd) v hv with hmem | ⟨hd, hgt⟩
    · rcases update_speeds_eq e s sd with heq | ⟨p, hp, hgt3, _, heq⟩
      · rw [heq] at hmem; exact Or.inl hmem
      · rw [heq] at hmem
        rcases mem_replaceFirst hmem with rfl | hmem'
        · refine Or.inr ⟨?_, hgt3⟩
          rw [hp, deltasFrom_some, deltasOf_cons_cons]
          exact List.mem_cons_self _ _
        · exact Or.inl hmem'
    · rw [update_previous, deltasFrom_some] at hd
      refine Or.inr ⟨?_, hgt⟩
      rcases e with ⟨prev, speeds⟩
      cases prev with
      | none => exact hd
      | some p =>
        rw [deltasFrom_some, deltasOf_cons_cons]
        exact List.mem_cons_of_mem _ hd

theorem mde_foldl_countNZ (sd : α) :
    ∀ (l : List α) (e : MaxDistanceEstimator α),
      ((l.foldl (fun e s => e.update s sd) e).speeds).countP (fun v => decide (v ≠ 0)) ≤
        e.speeds.countP (fun v => decide (v ≠ 0)) +
          (deltasFrom e.previous l).countP (fun d => decide (3 * sd < d)) := by
  intro l
  induction l with
  | nil =>
    intro e
    exact Nat.le_add_right _ _
  | cons s t ih =>
    intro e
    rw [List.foldl_cons]
    have hrec := ih (e.update s sd)
    rw [update_previous, deltasFrom_some] at hrec
    rcases e with ⟨prev, speeds⟩
    cases prev with
    | none =>
      have hsp : ((MaxDistanceEstimator.update ⟨none, speeds⟩ s sd).speeds) = speeds := rfl
      rw [hsp] at hrec
      exact hrec
    | some p =>
      rw [deltasFrom_some, deltasOf_cons_cons, List.countP_cons]
      rcases update_speeds_eq ⟨some p, speeds⟩ s sd with heq | ⟨q, hq, hgt3, _, heq⟩
      · rw [heq] at hrec
        omega
      · have hqp : q = p := by
          simpa using hq.symm
        subst hqp
        rw [heq] at hrec
        dsimp only at hrec ⊢
        rw [if_pos (by simpa using hgt3)]
        have hcount := countP_replaceFirst (fun v => decide (v ≠ 0)) speeds
          (speedsMin speeds) (|q - s|)
        omega

theorem exists_false_of_countP_lt {β : Type} (p : β → Bool) :
    ∀ l : List β, l.countP p < l.length → ∃ v ∈ l, p v = false := by
  intro l
  induction l with
  | nil => intro h; exact absurd h (by simp)
  | cons x t ih =>
    intro h
    rw [List.countP_cons, List.length_cons] at h
    cases hx : p x with
    | false => exact ⟨x, List.mem_cons_self x t, hx⟩
    | true =>
      rw [hx, if_pos rfl] at h
      obtain ⟨v, hv, hpv⟩ := ih (by omega)
      exact ⟨v, List.mem_cons_of_mem x hv, hpv⟩

theorem tamde_foldl (triples : List (α × α × α)) :
    ∀ e : ThreeAxisMaxDistanceEstimator α,
      triples.foldl (fun e t => e.update t.1 t.2.1 t.2.2) e =
        ⟨e.noise_std_dev,
         (triples.map fun t => t.1).foldl
           (fun m s => m.update s e.noise_std_dev) e.x,
         (triples.map fun t => t.2.1).foldl
           (fun m s => m.update s e.noise_std_dev) e.y,
         (triples.map fun t => t.2.2).foldl
           (fun m s => m.update s e.noise_std_dev) e.z⟩ := by
  induction triples with
  | nil => intro e; rfl
  | cons t ts ih =>
    intro e
    rw [List.foldl_cons, ih]
    rfl

theorem runMDE_mwr_zero (samples : List α) (sd : α)
    (h : ((deltasOf samples).countP fun d => decide (3 * sd < d)) < 5) :
    (runMDE samples sd).max_within_reason = 0 := by
  have hlen : (runMDE samples sd).speeds.length = 5 := by
    have := mde_foldl_length sd samples (MaxDistanceEstimator.new : MaxDistanceEstimator α)
    simpa [MaxDistanceEstimator.new, runMDE] using this
  have hcnt0 :
      ((MaxDistanceEstimator.new : MaxDistanceEstimator α).speeds).countP
        (fun v => decide (v ≠ 0)) = 0 := by
    simp [MaxDistanceEstimator.new]
  have hcnt :
      ((runMDE samples sd).speeds).countP (fun v => decide (v ≠ 0)) < 5 := by
    have hle := mde_foldl_countNZ sd samples
      (MaxDistanceEstimator.new : MaxDistanceEstimator α)
    rw [hcnt0] at hle
    have : (deltasFrom (MaxDistanceEstimator.new : MaxDistanceEstimator α).previous
        samples).countP (fun d => decide (3 * sd < d)) =
        (deltasOf samples).countP (fun d => decide (3 * sd < d)) := rfl
    rw [this] at hle
    calc ((runMDE samples sd).speeds).countP (fun v => decide (v ≠ 0)) ≤ _ := hle
    _ < 5 := by omega
  obtain ⟨v0, hv0mem, hv0⟩ := exists_false_of_countP_lt _ _ (by rw [hlen]; exact hcnt)
  have hv0z : v0 = 0 := by simpa using hv0
  have hne : (runMDE samples sd).speeds ≠ [] := by
    intro hn; rw [hn] at hlen; exact absurd hlen (by simp)
  have hle0 : speedsMin (runMDE samples sd).speeds ≤ 0 :=
    hv0z ▸ speedsMin_le _ v0 hv0mem
  have hge0 : 0 ≤ speedsMin (runMDE samples sd).speeds := by
    have hm := speedsMin_mem _ hne
    rcases mde_foldl_mem sd samples (MaxDistanceEstimator.new : MaxDistanceEstimator α)
      _ hm with h0 | ⟨hd, _⟩
    · have : speedsMin (runMDE samples sd).speeds = 0 := by
        simpa [MaxDistanceEstimator.new] using h0
      exact this.ge
    · exact deltasOf_nonneg hd
  exact le_antisymm hle0 hge0

end MaxDistanceLemmas

/-- C9: for every input sequence fed to `MaxDistanceEstimator::update` with a
fixed stddev, the 5-slot array only ever holds — besides its zero initial
values — jumps `|previous - sample|` that strictly exceed `3 * stddev`, and
`max_within_reason()` returns the minimum of the 5 slots, which is at most
the maximum jump observed over the whole sequence. -/
theorem mde_top5_slots_spec (samples : List ℚ) (sd : ℚ)
    (hlen : 2 ≤ samples.length) :
    (∀ v ∈ (runMDE samples sd).speeds,
        v = 0 ∨ (3 * sd < v ∧ v ∈ deltasOf samples)) ∧
    (runMDE samples sd).max_within_reason = speedsMin (runMDE samples sd).speeds ∧
    ∃ dmax ∈ deltasOf samples,
      (∀ d ∈ deltasOf samples, d ≤ dmax) ∧
      (runMDE samples sd).max_within_reason ≤ dmax := by
  have hmem0 : ∀ v ∈ (runMDE samples sd).speeds,
      v = 0 ∨ (3 * sd < v ∧ v ∈ deltasOf samples) := by
    intro v hv
    rcases mde_foldl_mem sd samples (MaxDistanceEstimator.new : MaxDistanceEstimator ℚ)
      v hv with h0 | ⟨hd, hgt⟩
    · exact Or.inl (by simpa [MaxDistanceEstimator.new] using h0)
    · exact Or.inr ⟨hgt, hd⟩
  refine ⟨hmem0, rfl, ?_⟩
  have hdne : deltasOf samples ≠ [] := by
    intro hn
    have := deltasOf_length samples
    rw [hn] at this
    simp at this
    omega
  obtain ⟨hm, hb⟩ := foldr_max_zero_spec (deltasOf samples) hdne
    (fun v hv => deltasOf_nonneg hv)
  refine ⟨(deltasOf samples).foldr max 0, hm, hb, ?_⟩
  have hlen5 : (runMDE samples sd).speeds.length = 5 := by
    have := mde_foldl_length sd samples (MaxDistanceEstimator.new : MaxDistanceEstimator ℚ)
    simpa [MaxDistanceEstimator.new, runMDE] using this
  have hne : (runMDE samples sd).speeds ≠ [] := by
    intro hn; rw [hn] at hlen5; exact absurd hlen5 (by simp)
  have hmm := speedsMin_mem _ hne
  rcases hmem0 _ hmm with h0 | ⟨_, hdel⟩
  · rw [MaxDistanceEstimator.max_within_reason, h0]
    exact deltasOf_nonneg hm
  · exact hb _ hdel

/-- Witness for C9, at the concrete run `[0, 10, 0]` with stddev `1`. -/
theorem mde_top5_slots_spec_witness :
    2 ≤ ([0, 10, 0] : List ℚ).length ∧
    ((∀ v ∈ (runMDE ([0, 10, 0] : List ℚ) 1).speeds,
        v = 0 ∨ (3 * 1 < v ∧ v ∈ deltasOf ([0, 10, 0] : List ℚ))) ∧
     (runMDE ([0, 10, 0] : List ℚ) 1).max_within_reason =
        speedsMin (runMDE ([0, 10, 0] : List ℚ) 1).speeds ∧
     ∃ dmax ∈ deltasOf ([0, 10, 0] : List ℚ),
       (∀ d ∈ deltasOf ([0, 10, 0] : List ℚ), d ≤ dmax) ∧
       (runMDE ([0, 10, 0] : List ℚ) 1).max_within_reason ≤ dmax) :=
  ⟨by norm_num, mde_top5_slots_spec [0, 10, 0] 1 (by norm_num)⟩

/-- C10: with fewer than five threshold-exceeding jumps the five
zero-initialised slots cannot all have been overwritten, so
`max_within_reason()` returns `0`; in particular a fresh estimator returns
`0`, its slot array keeps length 5 (so the `min_by ... unwrap` in the source
never fails), and the three-axis estimator returns `0` whenever no axis has
seen five significant jumps. -/
theorem mde_sparse_jumps_zero (samples : List ℚ) (sd : ℚ)
    (triples : List (ℚ × ℚ × ℚ)) (nsd : ℚ)
    (h1 : ((deltasOf samples).countP fun d => decide (3 * sd < d)) < 5)
    (hx : ((deltasOf (triples.map fun t => t.1)).countP
        fun d => decide (3 * nsd < d)) < 5)
    (hy : ((deltasOf (triples.map fun t => t.2.1)).countP
        fun d => decide (3 * nsd < d)) < 5)
    (hz : ((deltasOf (triples.map fun t => t.2.2)).countP
        fun d => decide (3 * nsd < d)) < 5) :
    (runMDE samples sd).max_within_reason = 0 ∧
    (runMDE samples sd).speeds.length = 5 ∧
    (MaxDistanceEstimator.new : MaxDistanceEstimator ℚ).max_within_reason = 0 ∧
    (runTAMDE triples nsd).max_within_reason = 0 := by
  refine ⟨runMDE_mwr_zero samples sd h1, ?_, ?_, ?_⟩
  · have := mde_foldl_length sd samples (MaxDistanceEstimator.new : MaxDistanceEstimator ℚ)
    simpa [MaxDistanceEstimator.new, runMDE] using this
  · exact runMDE_mwr_zero [] sd (by simp [deltasOf])
  · have hdecomp := tamde_foldl triples (ThreeAxisMaxDistanceEstimator.new nsd)
    have hzx := runMDE_mwr_zero (triples.map fun t => t.1) nsd hx
    have hzy := runMDE_mwr_zero (triples.map fun t => t.2.1) nsd hy
    have hzz := runMDE_mwr_zero (triples.map fun t => t.2.2) nsd hz
    rw [runTAMDE, hdecomp, ThreeAxisMaxDistanceEstimator.max_within_reason]
    rw [show (ThreeAxisMaxDistanceEstimator.new nsd : ThreeAxisMaxDistanceEstimator ℚ).noise_std_dev = nsd from rfl]
    rw [show (ThreeAxisMaxDistanceEstimator.new nsd : ThreeAxisMaxDistanceEstimator ℚ).x = MaxDistanceEstimator.new from rfl]
    rw [show (ThreeAxisMaxDistanceEstimator.new nsd : ThreeAxisMaxDistanceEstimator ℚ).y = MaxDistanceEstimator.new from rfl]
    rw [show (ThreeAxisMaxDistanceEstimator.new nsd : ThreeAxisMaxDistanceEstimator ℚ).z = MaxDistanceEstimator.new from rfl]
    rw [show ((triples.map fun t => t.1).foldl (fun m s => m.update s nsd)
        MaxDistanceEstimator.new : MaxDistanceEstimator ℚ) =
        runMDE (triples.map fun t => t.1) nsd from rfl]
    rw [show ((triples.map fun t => t.2.1).foldl (fun m s => m.update s nsd)
        MaxDistanceEstimator.new : MaxDistanceEstimator ℚ) =
        runMDE (triples.map fun t => t.2.1) nsd from rfl]
    rw [show ((triples.map fun t => t.2.2).foldl (fun m s => m.update s nsd)
        MaxDistanceEstimator.new : MaxDistanceEstimator ℚ) =
        runMDE (triples.map fun t => t.2.2) nsd from rfl]
    rw [hzx, hzy, hzz]
    norm_num

/-- Witness for C10, at concrete runs with two significant jumps on one axis. -/
theorem mde_sparse_jumps_zero_witness :
    (((deltasOf ([0, 10, 0] : List ℚ)).countP fun d => decide (3 * 1 < d)) < 5) ∧
    (((deltasOf (([(0, 0, 0), (10, 0, 0)] : List (ℚ × ℚ × ℚ)).map fun t => t.1)).countP
        fun d => decide (3 * 1 < d)) < 5) ∧
    (((deltasOf (([(0, 0, 0), (10, 0, 0)] : List (ℚ × ℚ × ℚ)).map fun t => t.2.1)).countP
        fun d => decide (3 * 1 < d)) < 5) ∧
    (((deltasOf (([(0, 0, 0), (10, 0, 0)] : List (ℚ × ℚ × ℚ)).map fun t => t.2.2)).countP
        fun d => decide (3 * 1 < d)) < 5) ∧
    ((runMDE ([0, 10, 0] : List ℚ) 1).max_within_reason = 0 ∧
     (runMDE ([0, 10, 0] : List ℚ) 1).speeds.length = 5 ∧
     (MaxDistanceEstimator.new : MaxDistanceEstimator ℚ).max_within_reason = 0 ∧
     (runTAMDE ([(0, 0, 0), (10, 0, 0)] : List (ℚ × ℚ × ℚ)) 1).max_within_reason = 0) :=
  ⟨by norm_num [deltasOf, List.countP_cons],
   by norm_num [deltasOf, List.countP_cons],
   by norm_num [deltasOf, List.countP_cons],
   by norm_num [deltasOf, List.countP_cons],
   mde_sparse_jumps_zero [0, 10, 0] 1 [(0, 0, 0), (10, 0, 0)] 1
     (by norm_num [deltasOf, List.countP_cons])
     (by norm_num [deltasOf, List.countP_cons])
     (by norm_num [deltasOf, List.countP_cons])
     (by norm_num [deltasOf, List.countP_cons])⟩

/-- C6 counterexample: `get_beta_index(1.0)` does not return a bracket with
low and high indices 45: the code adds the surviving `beta` value (1.0) to
`b_idx = 45`, so both bracket components are 46. -/
theorem get_beta_index_one_not_45 :
    ¬((Grid.get_beta_index 1).2.1 = 45 ∧ (Grid.get_beta_index 1).2.2 = 45) := by
  norm_num [Grid.get_beta_index, Grid.get_beta_index_loop]

/-- C6 amended: `get_beta_index(1.0)` returns `[46, 46, 46]` — a degenerate
(low = high) boundary bracket at index 46, not 45. -/
theorem get_beta_index_one_eq_46 : Grid.get_beta_index 1 = (46, 46, 46) := by
  norm_num [Grid.get_beta_index, Grid.get_beta_index_loop]

/-- C4 counterexample: at the exact lattice coordinates of the spec's table
axes — jitter `(0+1)/3`, cutoff `0.05*(0+1)`, beta `1` (which maps to the
degenerate bracket `[46, 46]`) — `precision` returns `19/20` on a table whose
cell `[0][0][46]` holds `0`: the `cutoff/0.05 - 0.05` index map sends the
lattice cutoff `0.05` to the fractional index `0.95`, so the cutoff axis
interpolates cells 0 and 1 with weights `0.05/0.95` instead of reproducing
cell 0. -/
theorem precision_lattice_counterexample :
    Grid.precision ⟨10, fun _ fc _ => (fc : ℚ)⟩ (1 / 3) (1 / 20) 1 = 19 / 20 ∧
    (⟨10, fun _ fc _ => (fc : ℚ)⟩ : Grid).table 0 0 46 = 0 ∧
    (19 / 20 : ℚ) ≠ 0 := by
  refine ⟨?_, by norm_num, by norm_num⟩
  norm_num [Grid.precision, Grid.get_beta_index, Grid.get_beta_index_loop,
    Grid.toIdx, Grid.epsF64]
  rw [show ⌈(19 : ℚ) / 20⌉ = 1 from Int.ceil_eq_iff.mpr (by norm_num)]
  norm_num

/-- C4 amended: trilinear interpolation is the identity at the lattice points
of the index maps the code actually computes: jitter `(i+1)/3` with
`i < J_DIM`, cutoff `k/20 + 1/400` (exactly where the fractional index
`cutoff/0.05 - 0.05` is the integer `k`), and any beta that `get_beta_index`
maps to a degenerate bracket `(b, b, b)`; there `precision` returns the
stored cell `table[i][k][b]` exactly. -/
theorem precision_identity_at_code_lattice (jDim : ℕ) (tbl : ℕ → ℕ → ℕ → ℚ)
    (i k b : ℕ) (beta : ℚ) (hij : i < jDim)
    (hb : Grid.get_beta_index beta = ((b : ℚ), (b : ℚ), (b : ℚ))) :
    Grid.precision ⟨jDim, tbl⟩ (((i : ℚ) + 1) / 3) ((k : ℚ) / 20 + 1 / 400) beta
      = tbl i k b := by
  have hj : 3 * (((i : ℚ) + 1) / 3) - 1 = (i : ℚ) := by ring
  have hfc : ((k : ℚ) / 20 + 1 / 400) / (1 / 20) - 1 / 20 = (k : ℚ) := by
    field_simp
    ring
  have hmin : min ((i : ℚ)) (((jDim - 1 : ℕ) : ℚ)) = (i : ℚ) := by
    apply min_eq_left
    exact_mod_cast Nat.le_pred_of_lt hij
  simp only [Grid.precision, hb]
  rw [hj, hfc, hmin]
  simp [Grid.toIdx, Grid.epsF64]

/-- Witness for the amended C4 at `jDim = 1`, `i = k = 0`, `beta = 1`,
`b = 46`, on the table holding `fc * 1000 + 7` at cell `(j, fc, b)`. -/
theorem precision_identity_witness :
    0 < 1 ∧
    Grid.get_beta_index 1 = (((46 : ℕ) : ℚ), ((46 : ℕ) : ℚ), ((46 : ℕ) : ℚ)) ∧
    Grid.precision ⟨1, fun _ fc _ => (fc : ℚ) * 1000 + 7⟩
      (((0 : ℕ) + 1) / 3) ((0 : ℕ) / 20 + 1 / 400) 1 =
      (fun (_ fc _ : ℕ) => (fc : ℚ) * 1000 + 7) 0 0 46 :=
  ⟨Nat.zero_lt_one,
   by norm_num [Grid.get_beta_index, Grid.get_beta_index_loop],
   precision_identity_at_code_lattice 1 (fun _ fc _ => (fc : ℚ) * 1000 + 7)
     0 0 46 1 Nat.zero_lt_one
     (by norm_num [Grid.get_beta_index, Grid.get_beta_index_loop])⟩

/-- C7 counterexample: `4.00` is never tried as a candidate cutoff — the
sweep `(10..400).map(|x| x as f64 / 100.0)` has exclusive upper bound, so its
largest candidate is `3.99`. -/
theorem four_not_in_cutoff_sweep : (4 : ℚ) ∉ Tuner.minHzCandidates := by
  intro hmem
  rw [Tuner.minHzCandidates] at hmem
  rcases List.mem_map.mp hmem with ⟨kk, hk, heq⟩
  rw [List.mem_range'_1] at hk
  have hk400 : kk = 400 := by
    have hq : (kk : ℚ) = 400 := by
      field_simp at heq
      exact_mod_cast heq
    exact_mod_cast hq
  omega

/-- C7 amended: every sweep iteration enumerates exactly the cutoffs
`k/100` for `10 ≤ k < 400`, i.e. the half-open grid `{0.10, 0.11, ...,
3.99}`; in particular `0.10` and `3.99` are tried but `4.00` is not. -/
theorem cutoff_sweep_enumeration :
    (∀ q : ℚ, q ∈ Tuner.minHzCandidates ↔
      ∃ kk : ℕ, 10 ≤ kk ∧ kk < 400 ∧ q = (kk : ℚ) / 100) ∧
    (1 / 10 : ℚ) ∈ Tuner.minHzCandidates ∧
    (399 / 100 : ℚ) ∈ Tuner.minHzCandidates := by
  have hchar : ∀ q : ℚ, q ∈ Tuner.minHzCandidates ↔
      ∃ kk : ℕ, 10 ≤ kk ∧ kk < 400 ∧ q = (kk : ℚ) / 100 := by
    intro q
    rw [Tuner.minHzCandidates]
    simp only [List.mem_map, List.mem_range'_1]
    constructor
    · rintro ⟨kk, ⟨h1, h2⟩, rfl⟩
      exact ⟨kk, h1, by omega, rfl⟩
    · rintro ⟨kk, h1, h2, rfl⟩
      exact ⟨kk, ⟨h1, by omega⟩, rfl⟩
  refine ⟨hchar, ?_, ?_⟩
  · rw [hchar]
    exact ⟨10, le_refl 10, by omega, by norm_num⟩
  · rw [hchar]
    exact ⟨399, by omega, by omega, by norm_num⟩

/-- C5 counterexample: in the fallback branch (best-so-far lag exceeds the
bound: here best lag 5 > bound 1), a candidate whose lag ties the best lag
(5) is accepted by the code's non-strict `lag_s <= best_lag_s`, although
`5 < 5` is false — the claim's "strictly lower" reading fails. -/
theorem accept_rule_counterexample :
    Tuner.acceptCandidate 1 5 7 5 9 = true ∧ ¬((5 : ℚ) < 5) := by
  constructor
  · norm_num [Tuner.acceptCandidate]
  · norm_num

/-- C5 amended: when the best-so-far lag meets the max-lag bound, a candidate
is accepted exactly when its lag is strictly below the bound and its
precision is no worse than the best found; otherwise a candidate is accepted
exactly when its lag is less than or equal to (not strictly below) the
current best lag. -/
theorem accept_rule_characterization
    (maxLagSecs bestLagS bestPrecision lagS precisionV : ℚ) :
    Tuner.acceptCandidate maxLagSecs bestLagS bestPrecision lagS precisionV = true ↔
      (if bestLagS ≤ maxLagSecs then
        lagS < maxLagSecs ∧ precisionV ≤ bestPrecision
      else lagS ≤ bestLagS) := by
  rw [Tuner.acceptCandidate]
  split
  · simp only [Bool.not_eq_true', Bool.or_eq_false_iff, decide_eq_false_iff_not,
      not_le, not_lt]
  · simp

section NoiseLemmas

theorem ne_update_count (e : NoiseEstimator) (s : ℝ) :
    (e.update s).count = e.count + 1 := rfl

theorem ne_update_sampleHz (e : NoiseEstimator) (s : ℝ) :
    (e.update s).sampleHz = e.sampleHz := rfl

theorem ne_update_w (e : NoiseEstimator) (s : ℝ) : (e.update s).w = e.w := rfl

theorem ne_variance_none (e : NoiseEstimator) (h : e.count ≤ e.sampleHz) :
    e.variance = none := by
  rw [NoiseEstimator.variance, if_pos h]

theorem ne_foldl_count (seq : List ℝ) :
    ∀ e : NoiseEstimator,
      (seq.foldl NoiseEstimator.update e).count = e.count + seq.length := by
  induction seq with
  | nil => intro e; simp
  | cons s t ih =>
    intro e
    rw [List.foldl_cons, ih, ne_update_count, List.length_cons]
    omega

theorem ne_foldl_sampleHz (seq : List ℝ) :
    ∀ e : NoiseEstimator,
      (seq.foldl NoiseEstimator.update e).sampleHz = e.sampleHz := by
  induction seq with
  | nil => intro e; rfl
  | cons s t ih => intro e; rw [List.foldl_cons, ih, ne_update_sampleHz]

theorem ne_foldl_w (seq : List ℝ) :
    ∀ e : NoiseEstimator, (seq.foldl NoiseEstimator.update e).w = e.w := by
  induction seq with
  | nil => intro e; rfl
  | cons s t ih => intro e; rw [List.foldl_cons, ih, ne_update_w]

theorem axesLoop_stats (xv yv zv : ℝ) :
    ∀ (lx ly lz : List NoiseEstimator) (st : RunningStatistics),
      (∀ e ∈ lx, e.count + 1 ≤ e.sampleHz) →
      (SixtyHzThreeAxisNoiseEstimator.axesLoop xv yv zv lx ly lz st).2.2.2 = st := by
  intro lx
  induction lx with
  | nil => intro ly lz st h; rfl
  | cons ex tx ih =>
    intro ly lz st h
    match ly, lz with
    | [], _ => rfl
    | _ :: _, [] => rfl
    | ey :: ty, ez :: tz =>
      have hx : (ex.update xv).variance = none :=
        ne_variance_none _ (by
          rw [ne_update_count, ne_update_sampleHz]
          exact h ex (List.mem_cons_self _ _))
      rw [SixtyHzThreeAxisNoiseEstimator.axesLoop]
      simp only [hx]
      exact ih ty tz st fun e he => h e (List.mem_cons_of_mem ex he)

theorem fresh_counts :
    ∀ e ∈ (List.range 20).map (NoiseEstimator.new 60), e.count + 1 ≤ e.sampleHz := by
  intro e he
  rcases List.mem_map.mp he with ⟨m, _, rfl⟩
  show (NoiseEstimator.new 60 m).count + 1 ≤ (NoiseEstimator.new 60 m).sampleHz
  norm_num [NoiseEstimator.new]

theorem demo_update_stats :
    (SixtyHzThreeAxisNoiseEstimator.update
      (demoCalibrator.noise_estimator) 0 0 0).1.stats = demoStats := by
  rw [SixtyHzThreeAxisNoiseEstimator.update]
  exact axesLoop_stats 0 0 0 _ _ _ _ fresh_counts

theorem demo_update_true :
    (SixtyHzThreeAxisNoiseEstimator.update
      (demoCalibrator.noise_estimator) 0 0 0).2 = true := by
  rw [SixtyHzThreeAxisNoiseEstimator.update]
  rw [decide_eq_true_eq]
  rw [show (SixtyHzThreeAxisNoiseEstimator.axesLoop 0 0 0
      demoCalibrator.noise_estimator.x demoCalibrator.noise_estimator.y
      demoCalibrator.noise_estimator.z
      demoCalibrator.noise_estimator.stats).2.2.2 = demoStats from
    axesLoop_stats 0 0 0 _ _ _ _ fresh_counts]
  show 2 * demoStats.ci95 / demoStats.mean < demoCalibrator.noise_estimator.threshold
  norm_num [demoStats, demoCalibrator, SixtyHzThreeAxisNoiseEstimator.new]

theorem applyOp_noise_std_dev (c : Calibrator) (op : CalOp) :
    (applyOp c op).noise_std_dev = c.noise_std_dev := by
  cases op with
  | prepNoise => rfl
  | procNoise xv yv zv =>
    show (c.process_noise xv yv zv).1.noise_std_dev = c.noise_std_dev
    rw [Calibrator.process_noise]
    split <;> rfl
  | prepAmp =>
    show c.prepare_amplitude.1.noise_std_dev = c.noise_std_dev
    rcases hc : c.noise_std_dev with _ | v <;>
      simp [Calibrator.prepare_amplitude, hc]
  | procAmp xv yv zv =>
    show (c.process_amplitude xv yv zv).1.noise_std_dev = c.noise_std_dev
    rcases hc : c.amplitude_estimator with _ | est <;>
      simp [Calibrator.process_amplitude, hc]
  | finalizeAmp =>
    show c.finalize_amplitude_processing.1.noise_std_dev = c.noise_std_dev
    rcases hc : c.amplitude_estimator with _ | est <;>
      simp [Calibrator.finalize_amplitude_processing, hc]

theorem runOps_noise_std_dev (ops : List CalOp) :
    ∀ c : Calibrator, (runOps c ops).noise_std_dev = c.noise_std_dev := by
  induction ops with
  | nil => intro c; rfl
  | cons op t ih =>
    intro c
    show (runOps (applyOp c op) t).noise_std_dev = c.noise_std_dev
    rw [ih, applyOp_noise_std_dev]

theorem new_w_pos (N m : ℕ) (hN : 3 ≤ N) : 0 < (NoiseEstimator.new N m).w := by
  show 0 < ∑ hz ∈ Finset.range N,
    (0.5 - 0.5 * Real.cos (2 * Real.pi * hz / ((N : ℝ) - 1))) ^ 2
  have hNR : (2 : ℝ) ≤ (N : ℝ) - 1 := by
    have : (3 : ℝ) ≤ (N : ℝ) := by exact_mod_cast hN
    linarith
  apply Finset.sum_pos'
  · intro i _
    positivity
  · refine ⟨1, Finset.mem_range.mpr (by omega), ?_⟩
    have harg : 2 * Real.pi * ((1 : ℕ) : ℝ) / ((N : ℝ) - 1) =
        2 * Real.pi / ((N : ℝ) - 1) := by norm_num
    rw [harg]
    have hpos : 0 < 2 * Real.pi / ((N : ℝ) - 1) := by positivity
    have hlt : 2 * Real.pi / ((N : ℝ) - 1) < 2 * Real.pi := by
      apply div_lt_self Real.two_pi_pos
      linarith
    have hiff := Real.cos_eq_one_iff_of_lt_of_lt
      (x := 2 * Real.pi / ((N : ℝ) - 1)) (by linarith) hlt
    have hne : Real.cos (2 * Real.pi / ((N : ℝ) - 1)) ≠ 1 := by
      intro hcontr
      have := hiff.mp hcontr
      linarith
    have hcos : Real.cos (2 * Real.pi / ((N : ℝ) - 1)) < 1 :=
      lt_of_le_of_ne (Real.cos_le_one _) hne
    have hbase : (0 : ℝ) < 0.5 - 0.5 * Real.cos (2 * Real.pi / ((N : ℝ) - 1)) := by
      linarith
    positivity

end NoiseLemmas

/-- C8 amended: for every `NoiseEstimator<N>` and every update sequence,
`variance()` is `None` exactly while `count ≤ N`, and otherwise equals
`power / ((count - N) * w)`; when moreover `N ≥ 3`, the divisor
`(count - N) * w` is nonzero.  (The counterexample shows that at `N = 2`
the Hanning normalisation `w` is exactly `0` in exact arithmetic, so the
divisor is zero while a value is returned.) -/
theorem variance_spec (N m : ℕ) (seq : List ℝ) :
    ((seq.foldl NoiseEstimator.update (NoiseEstimator.new N m)).variance = none ↔
      seq.length ≤ N) ∧
    (N < seq.length →
      (seq.foldl NoiseEstimator.update (NoiseEstimator.new N m)).variance =
        some ((seq.foldl NoiseEstimator.update (NoiseEstimator.new N m)).power /
          (((seq.length - N : ℕ) : ℝ) * (NoiseEstimator.new N m).w))) ∧
    (3 ≤ N → N < seq.length →
      ((seq.length - N : ℕ) : ℝ) * (NoiseEstimator.new N m).w ≠ 0) := by
  have hcnt : (seq.foldl NoiseEstimator.update (NoiseEstimator.new N m)).count =
      seq.length := by
    rw [ne_foldl_count]
    show (NoiseEstimator.new N m).count + seq.length = seq.length
    rw [show (NoiseEstimator.new N m).count = 0 from rfl]
    omega
  have hhz : (seq.foldl NoiseEstimator.update (NoiseEstimator.new N m)).sampleHz =
      N := by
    rw [ne_foldl_sampleHz]
    rfl
  have hw : (seq.foldl NoiseEstimator.update (NoiseEstimator.new N m)).w =
      (NoiseEstimator.new N m).w := ne_foldl_w seq _
  refine ⟨?_, ?_, ?_⟩
  · rw [NoiseEstimator.variance, hcnt, hhz]
    constructor
    · intro hnone
      by_contra hgt
      rw [if_neg hgt] at hnone
      exact Option.some_ne_none _ hnone
    · intro hle
      rw [if_pos hle]
  · intro hlt
    rw [NoiseEstimator.variance, hcnt, hhz, hw, if_neg (by omega)]
  · intro hN hlt
    apply mul_ne_zero
    · exact Nat.cast_ne_zero.mpr (by omega)
    · exact ne_of_gt (new_w_pos N m hN)

/-- Witness for the amended C8 at `N = 60`, `monitor_hz = 0`, and a
61-sample sequence (one more than a full buffer cycle). -/
theorem variance_spec_witness :
    (3 ≤ 60) ∧ 60 < (List.replicate 61 (0 : ℝ)).length ∧
    ((List.replicate 61 (0 : ℝ)).foldl NoiseEstimator.update
        (NoiseEstimator.new 60 0)).variance =
      some (((List.replicate 61 (0 : ℝ)).foldl NoiseEstimator.update
          (NoiseEstimator.new 60 0)).power /
        ((((List.replicate 61 (0 : ℝ)).length - 60 : ℕ) : ℝ) *
          (NoiseEstimator.new 60 0).w)) ∧
    (((List.replicate 61 (0 : ℝ)).length - 60 : ℕ) : ℝ) *
      (NoiseEstimator.new 60 0).w ≠ 0 :=
  ⟨by norm_num, by simp,
   (variance_spec 60 0 (List.replicate 61 0)).2.1 (by simp),
   (variance_spec 60 0 (List.replicate 61 0)).2.2 (by norm_num) (by simp)⟩

/-- C8 counterexample: at `N = 2` the bin spacing is `2π/(N-1) = 2π`, every
Hanning window term `(0.5 - 0.5·cos(2π·hz))²` vanishes, and `w = 0`; after
three updates `variance()` returns a value although its divisor
`(count - N) * w` is zero — the claim's "never a zero divisor" fails for
`NoiseEstimator<2>`. -/
theorem variance_zero_divisor_at_two :
    (([0, 0, 0] : List ℝ).foldl NoiseEstimator.update
        (NoiseEstimator.new 2 0)).variance.isSome = true ∧
    (((([0, 0, 0] : List ℝ).foldl NoiseEstimator.update
          (NoiseEstimator.new 2 0)).count -
        (([0, 0, 0] : List ℝ).foldl NoiseEstimator.update
          (NoiseEstimator.new 2 0)).sampleHz : ℕ) : ℝ) *
      (([0, 0, 0] : List ℝ).foldl NoiseEstimator.update
        (NoiseEstimator.new 2 0)).w = 0 := by
  have hcnt : (([0, 0, 0] : List ℝ).foldl NoiseEstimator.update
      (NoiseEstimator.new 2 0)).count = 3 := by
    rw [ne_foldl_count]
    rfl
  have hhz : (([0, 0, 0] : List ℝ).foldl NoiseEstimator.update
      (NoiseEstimator.new 2 0)).sampleHz = 2 := by
    rw [ne_foldl_sampleHz]
    rfl
  have hw0 : (NoiseEstimator.new 2 0).w = 0 := by
    show (∑ hz ∈ Finset.range 2,
      (0.5 - 0.5 * Real.cos (2 * Real.pi * hz / (((2 : ℕ) : ℝ) - 1))) ^ 2) = 0
    rw [Finset.sum_range_succ, Finset.sum_range_one]
    have h0 : 2 * Real.pi * ((0 : ℕ) : ℝ) / (((2 : ℕ) : ℝ) - 1) = 0 := by
      norm_num
    have h1 : 2 * Real.pi * ((1 : ℕ) : ℝ) / (((2 : ℕ) : ℝ) - 1) = 2 * Real.pi := by
      norm_num
    rw [h0, h1, Real.cos_zero, Real.cos_two_pi]
    norm_num
  have hw : (([0, 0, 0] : List ℝ).foldl NoiseEstimator.update
      (NoiseEstimator.new 2 0)).w = 0 := by
    rw [ne_foldl_w, hw0]
  constructor
  · rw [NoiseEstimator.variance, hcnt, hhz, if_neg (by omega)]
    rfl
  · rw [hw, mul_zero]

/-- C3 (code bug): `prepare_amplitude` returns `false` on every calibrator
state reachable from `new` — also after `process_noise` has returned `true` —
because `process_noise` binds `mean_variance()` to a local variable only and
never writes the `noise_std_dev` field that `prepare_amplitude` checks.  The
last two conjuncts exhibit a converged state (see `demoCalibrator`) on which
`process_noise` returns `true` while the subsequent `prepare_amplitude`
still returns `false`, contradicting the function's own doc comment. -/
theorem prepare_amplitude_always_false :
    (∀ (lp wl : ℝ) (ops : List CalOp),
        (runOps (Calibrator.new lp wl) ops).prepare_amplitude.2 = false) ∧
    (demoCalibrator.process_noise 0 0 0).2 = true ∧
    ((demoCalibrator.process_noise 0 0 0).1.prepare_amplitude).2 = false := by
  refine ⟨?_, ?_, ?_⟩
  · intro lp wl ops
    have hnone : (runOps (Calibrator.new lp wl) ops).noise_std_dev = none := by
      rw [runOps_noise_std_dev]
      rfl
    rw [Calibrator.prepare_amplitude, hnone]
  · simp [Calibrator.process_noise, demo_update_true]
  · have hnone : (demoCalibrator.process_noise 0 0 0).1.noise_std_dev = none :=
      applyOp_noise_std_dev demoCalibrator (.procNoise 0 0 0)
    rw [Calibrator.prepare_amplitude, hnone]

/-- C1 (code bug): `tuning_settings()` returns `none` on every calibrator
state reachable from `new`, because the `noise_std_dev` field it matches on
is never assigned anywhere; in particular, starting from the converged state
`demoCalibrator`, `process_noise` returns `true` and
`finalize_amplitude_processing` returns `true`, yet the subsequent
`tuning_settings()` is still `none`, not `Some(TuningSettings)` —
contradicting the function's own doc comment. -/
theorem tuning_settings_always_none :
    (∀ (lp wl : ℝ) (ops : List CalOp),
        (runOps (Calibrator.new lp wl) ops).tuning_settings = none) ∧
    (demoCalibrator.process_noise 0 0 0).2 = true ∧
    ((demoCalibrator.process_noise 0 0 0).1.finalize_amplitude_processing).2
      = true ∧
    ((demoCalibrator.process_noise 0 0 0).1.finalize_amplitude_processing).1.tuning_settings
      = none := by
  have hamp : (demoCalibrator.process_noise 0 0 0).1.amplitude_estimator =
      some (ThreeAxisMaxDistanceEstimator.new
        ((demoCalibrator.noise_estimator.update 0 0 0).1.mean_variance)) := by
    simp [Calibrator.process_noise, demo_update_true]
  refine ⟨?_, ?_, ?_, ?_⟩
  · intro lp wl ops
    have hnone : (runOps (Calibrator.new lp wl) ops).noise_std_dev = none := by
      rw [runOps_noise_std_dev]
      rfl
    rw [Calibrator.tuning_settings, hnone]
  · simp [Calibrator.process_noise, demo_update_true]
  · rw [Calibrator.finalize_amplitude_processing, hamp]
  · have hnsd :
        ((demoCalibrator.process_noise 0 0 0).1.finalize_amplitude_processing).1.noise_std_dev
          = none := by
      rw [show ((demoCalibrator.process_noise 0 0 0).1.finalize_amplitude_processing).1
            = applyOp (demoCalibrator.process_noise 0 0 0).1 .finalizeAmp from rfl]
      rw [applyOp_noise_std_dev]
      exact applyOp_noise_std_dev demoCalibrator (.procNoise 0 0 0)
    rw [Calibrator.tuning_settings, hnsd]

/-- C2 (code bug): on convergence, `process_noise` seeds the
`ThreeAxisMaxDistanceEstimator` with `mean_variance()` itself — a VARIANCE —
not with its square root: in general the estimator stored is
`new(mean_variance())` of the updated aggregate, and concretely from the
converged state `demoCalibrator` with `mean_variance() = 4` the estimator's
`noise_std_dev` field (the jump-threshold scale) is `4`, whereas the noise
standard deviation is `√4 = 2 ≠ 4`. -/
theorem amplitude_estimator_seeded_with_variance :
    (∀ (c : Calibrator) (xv yv zv : ℝ),
        (c.process_noise xv yv zv).1.amplitude_estimator =
          (if (c.noise_estimator.update xv yv zv).2 then
            some (ThreeAxisMaxDistanceEstimator.new
              (c.noise_estimator.update xv yv zv).1.mean_variance)
          else c.amplitude_estimator)) ∧
    (demoCalibrator.process_noise 0 0 0).2 = true ∧
    (demoCalibrator.process_noise 0 0 0).1.noise_estimator.mean_variance = 4 ∧
    (demoCalibrator.process_noise 0 0 0).1.amplitude_estimator =
      some (ThreeAxisMaxDistanceEstimator.new 4) ∧
    Real.sqrt 4 = 2 ∧
    (ThreeAxisMaxDistanceEstimator.new (4 : ℝ)).noise_std_dev = 4 ∧
    (4 : ℝ) ≠ 2 := by
  have hmv : (demoCalibrator.noise_estimator.update 0 0 0).1.mean_variance = 4 := by
    rw [SixtyHzThreeAxisNoiseEstimator.mean_variance, demo_update_stats]
    norm_num [demoStats]
  refine ⟨?_, ?_, ?_, ?_, ?_, ?_, ?_⟩
  · intro c xv yv zv
    cases hb : (c.noise_estimator.update xv yv zv).2 <;>
      simp [Calibrator.process_noise, hb]
  · simp [Calibrator.process_noise, demo_update_true]
  · have hne : (demoCalibrator.process_noise 0 0 0).1.noise_estimator =
        (demoCalibrator.noise_estimator.update 0 0 0).1 := by
      simp [Calibrator.process_noise, demo_update_true]
    rw [hne, hmv]
  · have := demo_update_true
    simp [Calibrator.process_noise, demo_update_true, hmv]
  · rw [show (4 : ℝ) = 2 ^ 2 by norm_num,
      Real.sqrt_sq (by norm_num : (0 : ℝ) ≤ 2)]
  · rfl
  · norm_num

end PitchPipe
